import Mathlib

/-!
Verification of the multi-agent coordination layer of the AIconsciousness
repository: a shallow embedding of the Swarm Environment (`src/swarm.py`,
backed by the SQLite tables declared in `src/memory.py`) and of the per-agent
Reason-Act-Reflect control loop (`src/graph.py`).

Modelling choices, uniform throughout:
* each SQLite table is a list of rows in insertion (rowid) order;
* SQLite `REAL` columns are rationals (`ℚ`), so the algebraic claims about
  pheromone dynamics are exact;
* `CURRENT_TIMESTAMP` is a logical clock (`Nat`) held in the store state and
  incremented by every statement that stamps a timestamp, so "newer" means
  "strictly larger clock value";
* a SQLite `UPDATE ... WHERE` is a `List.map` guarded by the `WHERE`
  predicate, a `DELETE ... WHERE` is a `List.filter` by its negation, and
  `ORDER BY ... LIMIT n` is a stable insertion sort followed by `List.take`;
* each operation of `SwarmEnvironment` is a single pure transition on the
  store state, which is how the per-statement atomicity of the SQLite
  backend is represented;
* the external LLM ("reasoning oracle") is an explicit function parameter
  returning `Except`, a `.error` result standing for a raised exception or
  timeout of the remote call; a Python `try/except` that logs and returns
  the incoming state becomes a `match` whose error branch returns the state.
-/

namespace AICswarm

/-- Row of the `concepts` table (`memory.py`, `_initialize_sqlite_tables`):
`name TEXT PRIMARY KEY, pheromone REAL, last_reinforced DATETIME`. -/
structure ConceptRow where
  name : String
  pheromone : ℚ
  lastReinforced : Nat
deriving DecidableEq

/-- Row of the `facts` table: `id, content, source_agent_id, timestamp`. -/
structure FactRow where
  id : Nat
  content : String
  sourceAgentId : String
  timestamp : Nat
deriving DecidableEq

/-- The `status` column of the `tasks` table: 'pending', 'in_progress' or
'completed'. -/
inductive TaskStatus where
  | pending
  | inProgress
  | completed
deriving DecidableEq

/-- Row of the `tasks` table:
`id, description, status, assigned_agent_id, created_at, completed_at`. -/
structure TaskRow where
  id : Nat
  description : String
  status : TaskStatus
  assignedAgentId : Option String
  createdAt : Nat
  completedAt : Option Nat
deriving DecidableEq

/-- Row of the `memories` table: `id, content, timestamp`. -/
structure MemoryRow where
  id : Nat
  content : String
  timestamp : Nat
deriving DecidableEq

/-- The shared SQLite store behind `SwarmEnvironment` and the memory tools:
the four tables plus the auto-increment counters and the logical clock that
stands for `CURRENT_TIMESTAMP`. -/
structure SwarmEnv where
  concepts : List ConceptRow
  facts : List FactRow
  tasks : List TaskRow
  memories : List MemoryRow
  nextFactId : Nat
  nextTaskId : Nat
  nextMemoryId : Nat
  clock : Nat
deriving DecidableEq

/-- A freshly created database: empty tables, auto-increment counters at 1. -/
def emptySwarmEnv : SwarmEnv :=
  { concepts := [], facts := [], tasks := [], memories := []
    nextFactId := 1, nextTaskId := 1, nextMemoryId := 1, clock := 0 }

/-- `SwarmEnvironment.reinforce_concept` (`swarm.py` lines 14-44):
`INSERT INTO concepts (name, pheromone, last_reinforced) VALUES (?, ?, NOW)
ON CONFLICT(name) DO UPDATE SET pheromone = pheromone + ?,
last_reinforced = NOW`. -/
def reinforce_concept (env : SwarmEnv) (concept : String) (weight : ℚ) : SwarmEnv :=
  if env.concepts.any (fun r => r.name = concept) then
    { env with
      concepts := env.concepts.map (fun r =>
        if r.name = concept then
          { r with pheromone := r.pheromone + weight, lastReinforced := env.clock }
        else r)
      clock := env.clock + 1 }
  else
    { env with
      concepts := env.concepts ++ [⟨concept, weight, env.clock⟩]
      clock := env.clock + 1 }

/-- One entry of the result of `get_strongest_concepts`: the dictionary
`{"concept": name, "strength": pheromone}`. -/
structure ConceptResult where
  concept : String
  strength : ℚ
deriving DecidableEq

/-- `SwarmEnvironment.get_strongest_concepts` (`swarm.py` lines 46-71):
`SELECT name, pheromone FROM concepts WHERE pheromone > 0
ORDER BY pheromone DESC LIMIT ?`. -/
def get_strongest_concepts (env : SwarmEnv) (limit : Nat) : List ConceptResult :=
  ((((env.concepts.filter (fun r => 0 < r.pheromone)).insertionSort
      (fun a b => b.pheromone ≤ a.pheromone)).map
      (fun r => ConceptResult.mk r.name r.pheromone)).take limit)

/-- `SwarmEnvironment.evaporate` (`swarm.py` lines 73-106):
`UPDATE concepts SET pheromone = pheromone * (1 - decay_rate)` followed by
`DELETE FROM concepts WHERE pheromone < 0.01`, committed together. -/
def evaporate (env : SwarmEnv) (decayRate : ℚ) : SwarmEnv :=
  { env with
    concepts := ((env.concepts.map (fun r =>
        { r with pheromone := r.pheromone * (1 - decayRate) })).filter
        (fun r => (1 : ℚ)/100 ≤ r.pheromone)) }

/-- `SwarmEnvironment.add_fact` (`swarm.py` lines 108-134):
`INSERT INTO facts (content, source_agent_id, timestamp) VALUES (?, ?, NOW)`. -/
def add_fact (env : SwarmEnv) (fact : String) (sourceAgentId : String) : SwarmEnv :=
  { env with
    facts := env.facts ++ [⟨env.nextFactId, fact, sourceAgentId, env.clock⟩]
    nextFactId := env.nextFactId + 1
    clock := env.clock + 1 }

/-- The SQL predicate `content LIKE ?` with pattern `%query%`: a
case-insensitive substring test (SQLite LIKE folds ASCII case). -/
def likeMatch (query content : String) : Bool :=
  decide ((query.toList.map Char.toLower) <:+: (content.toList.map Char.toLower))

/-- One entry of the result of `get_facts`: the dictionary
`{"content": ..., "source_agent_id": ...}`. -/
structure FactResult where
  content : String
  sourceAgentId : String
deriving DecidableEq

/-- The rows selected by `SwarmEnvironment.get_facts` (`swarm.py` lines
136-170) before column projection: `SELECT ... FROM facts
[WHERE content LIKE %query%] ORDER BY timestamp DESC LIMIT ?`; the filter
branch is taken only when `query` is a non-empty string (Python truthiness
of `if query:`). -/
def get_fact_rows (env : SwarmEnv) (query : Option String) (limit : Nat) :
    List FactRow :=
  let rows := match query with
    | some q => if q = "" then env.facts
                else env.facts.filter (fun f => likeMatch q f.content)
    | none => env.facts
  (rows.insertionSort (fun a b => b.timestamp ≤ a.timestamp)).take limit

/-- `SwarmEnvironment.get_facts`: the selected rows projected to the
`content` and `source_agent_id` columns. -/
def get_facts (env : SwarmEnv) (query : Option String) (limit : Nat) :
    List FactResult :=
  (get_fact_rows env query limit).map (fun f => FactResult.mk f.content f.sourceAgentId)

/-- `SwarmEnvironment.add_task` (`swarm.py` lines 172-198):
`INSERT INTO tasks (description, assigned_agent_id) VALUES (?, ?)`; the
schema defaults fill in `status='pending'`, `created_at=NOW`,
`completed_at=NULL`. -/
def add_task (env : SwarmEnv) (description : String) (sourceAgentId : String) :
    SwarmEnv :=
  { env with
    tasks := env.tasks ++
      [⟨env.nextTaskId, description, TaskStatus.pending, some sourceAgentId,
        env.clock, none⟩]
    nextTaskId := env.nextTaskId + 1
    clock := env.clock + 1 }

/-- `SwarmEnvironment.get_available_tasks` (`swarm.py` lines 200-225):
`SELECT id, description, assigned_agent_id FROM tasks
WHERE status = 'pending' ORDER BY created_at ASC LIMIT ?` (returned here as
full rows; the Python code projects three columns of each row). -/
def get_available_tasks (env : SwarmEnv) (limit : Nat) : List TaskRow :=
  (((env.tasks.filter (fun t => t.status = TaskStatus.pending)).insertionSort
      (fun a b => a.createdAt ≤ b.createdAt)).take limit)

/-- Outcome of `mark_task_as_completed`, discriminated in the source by
`cursor.rowcount > 0`: `ok` is the "Task {id} marked as completed." branch,
`notOwned` the "Task {id} not found or not assigned to you." branch. -/
inductive TaskResult where
  | ok
  | notOwned
deriving DecidableEq

/-- `SwarmEnvironment.mark_task_as_completed` (`swarm.py` lines 227-259):
`UPDATE tasks SET status='completed', completed_at=NOW
WHERE id = ? AND assigned_agent_id = ?`, then branches on `rowcount`. -/
def mark_task_as_completed (env : SwarmEnv) (taskId : Nat)
    (assignedAgentId : String) : SwarmEnv × TaskResult :=
  let hit := fun t : TaskRow =>
    t.id = taskId ∧ t.assignedAgentId = some assignedAgentId
  ({ env with
     tasks := env.tasks.map (fun t =>
       if hit t then
         { t with status := TaskStatus.completed, completedAt := some env.clock }
       else t)
     clock := env.clock + 1 },
   if env.tasks.any (fun t => hit t) then TaskResult.ok else TaskResult.notOwned)

/-- The pheromone currently stored for a concept name: first (unique, since
`name` is the primary key) matching row of the `concepts` table. -/
def pheromoneOf (env : SwarmEnv) (concept : String) : Option ℚ :=
  (env.concepts.find? (fun r => r.name = concept)).map ConceptRow.pheromone

/-- The task row currently stored under a task id: first (unique, since `id`
is the primary key) matching row of the `tasks` table. -/
def taskOf (env : SwarmEnv) (taskId : Nat) : Option TaskRow :=
  env.tasks.find? (fun t => t.id = taskId)

/-- Store states reachable from a fresh database: task ids are below the
auto-increment counter and pairwise distinct (SQLite PRIMARY KEY), and
every stored fact timestamp is in the past of the logical clock. -/
def SwarmWf (env : SwarmEnv) : Prop :=
  (∀ t ∈ env.tasks, t.id < env.nextTaskId) ∧
  (env.tasks.map TaskRow.id).Nodup ∧
  (∀ f ∈ env.facts, f.timestamp < env.clock)

instance swarmWfDecidable (env : SwarmEnv) : Decidable (SwarmWf env) := by
  unfold SwarmWf
  exact inferInstance

/-- A tool call as langchain hands it to `tool_executor` (`graph.py`): a
dictionary with the capability name, its arguments (kept opaque here) and
the invocation id. -/
structure ToolCall where
  name : String
  args : String
  id : String
deriving DecidableEq

/-- A message of the conversation history: `HumanMessage`, the oracle's
`AIMessage` (carrying its `tool_calls` list), or a `ToolMessage` tied to a
tool call id. -/
inductive Msg where
  | human (content : String)
  | ai (content : String) (toolCalls : List ToolCall)
  | tool (content : String) (toolCallId : String)
deriving DecidableEq

/-- A registered capability from the `tools` list of `graph.py`: a name and
an invocation function; `.error e` stands for the Python call raising an
exception with text `e`. -/
structure Tool where
  name : String
  run : String → Except String String
deriving Inhabited

/-- The ASCII single-quote character, used by the Python f-strings of
`graph.py`. -/
def sq : String := String.singleton (Char.ofNat 39)

/-- The content of the `ToolMessage` that `tool_executor` (`graph.py` lines
25-52) produces for one tool call: the stringified tool output on success,
`"Error: {e}"` when the capability raises `e`, and
`"Tool '{name}' not found."` when no registered tool has the
requested name. -/
def toolResultContent (tools : List Tool) (tc : ToolCall) : String :=
  match tools.find? (fun t => t.name = tc.name) with
  | some t =>
    match t.run tc.args with
    | Except.ok out => out
    | Except.error e => "Error: " ++ e
  | none => "Tool " ++ sq ++ tc.name ++ sq ++ " not found."

/-- `tool_executor` (`graph.py` lines 25-52): one `ToolMessage` per tool
call, in the order of the `tool_calls` list, each tied to its call id. -/
def tool_executor (tools : List Tool) (toolCalls : List ToolCall) : List Msg :=
  toolCalls.map (fun tc => Msg.tool (toolResultContent tools tc) tc.id)

/-- The `AgentState` checkpoint of `src/state.py` as used by `graph.py`:
conversation, goal text, plan, retrieved memories, iteration counter and
accumulated tool outputs. -/
structure AgentState where
  messages : List Msg
  input : String
  plan : String
  retrievedMemories : String
  iterations : Nat
  toolOutputs : List Msg
deriving DecidableEq

/-- The `tool_calls` attribute of the last message, when it exists: `none`
models the `AttributeError` a non-`AIMessage` raises, which the
`try/except` of the calling node turns into "return the state unchanged". -/
def lastToolCalls (s : AgentState) : Option (List ToolCall) :=
  match s.messages.getLast? with
  | some (Msg.ai _ tcs) => some tcs
  | _ => none

/-- `tool_executor_node` (`graph.py` lines 106-127): runs the batch of tool
calls of the last (oracle) message and appends every resulting
`ToolMessage` to `messages` and `tool_outputs`; any exception while reading
the tool calls is caught and the state returned unchanged. -/
def tool_executor_node (tools : List Tool) (s : AgentState) : AgentState :=
  match lastToolCalls s with
  | some tcs =>
    { s with
      messages := s.messages ++ tool_executor tools tcs
      toolOutputs := s.toolOutputs ++ tool_executor tools tcs }
  | none => s

/-- `search_long_term_memory` (`tools.py` lines 31-53):
`SELECT content FROM memories WHERE content LIKE %query%
ORDER BY timestamp DESC LIMIT 5`, joined by newlines, with a fallback
sentence when nothing matches. -/
def search_long_term_memory (env : SwarmEnv) (query : String) : String :=
  let rows := ((env.memories.filter (fun m => likeMatch query m.content)).insertionSort
      (fun a b => b.timestamp ≤ a.timestamp)).take 5
  if rows = [] then
    "No specific memories found in SQLite for " ++ sq ++ query ++ sq ++ "."
  else
    String.intercalate "\n" (rows.map MemoryRow.content)

/-- `add_long_term_memory` (`tools.py` lines 13-28):
`INSERT INTO memories (content) VALUES (?)`. -/
def add_long_term_memory (env : SwarmEnv) (content : String) : SwarmEnv :=
  { env with
    memories := env.memories ++ [⟨env.nextMemoryId, content, env.clock⟩]
    nextMemoryId := env.nextMemoryId + 1
    clock := env.clock + 1 }

/-- What the reasoning oracle answers: `response.content` and
`response.tool_calls`. -/
structure OracleResponse where
  content : String
  toolCalls : List ToolCall
deriving DecidableEq

/-- The external reasoning oracle of the Reasoning state: a function of the
assembled message list, the retrieved memories and the goal text;
`.error e` stands for the remote call raising or timing out. -/
def ReasonOracle : Type :=
  List Msg → String → String → Except String OracleResponse

/-- The message list `reasoning_node` assembles for the oracle
(`graph.py` lines 81-84): the goal first, then the retrieved memories (only
when non-empty, Python truthiness), then the running conversation. -/
def reasoningContext (s : AgentState) (mems : String) : List Msg :=
  Msg.human ("User" ++ sq ++ "s Goal: " ++ s.input) ::
    ((if mems ≠ "" then [Msg.human ("Retrieved Memories: " ++ mems)] else []) ++
      s.messages)

/-- `reasoning_node` (`graph.py` lines 63-104): retrieves memories, calls
the oracle on the assembled context, and on success appends the response to
the history, records the plan and bumps the iteration counter; the
surrounding `try/except` returns the incoming state unchanged when the
oracle call raises. -/
def reasoning_node (env : SwarmEnv) (oracle : ReasonOracle) (s : AgentState) :
    AgentState :=
  let mems := search_long_term_memory env s.input
  match oracle (reasoningContext s mems) mems s.input with
  | Except.error _ => s
  | Except.ok resp =>
    { s with
      messages := s.messages ++ [Msg.ai resp.content resp.toolCalls]
      plan := resp.content
      retrievedMemories := mems
      iterations := s.iterations + 1 }

/-- The oracle call of the Reflecting state: the conversation history in,
a learning summary out; `.error e` stands for a raised exception. -/
def ReflectOracle : Type := List Msg → Except String String

/-- `reflection_node` (`graph.py` lines 153-186): asks the oracle for a
summary of the conversation, stores it in long-term memory, reinforces the
goal text as a concept with weight 1.0, and returns the agent state
unchanged; the surrounding `try/except` leaves both the store and the
state unchanged when the oracle call raises. -/
def reflection_node (oracle : ReflectOracle) (env : SwarmEnv) (s : AgentState) :
    SwarmEnv × AgentState :=
  match oracle s.messages with
  | Except.error _ => (env, s)
  | Except.ok summary =>
    (reinforce_concept (add_long_term_memory env summary) s.input 1, s)

/-- The named nodes of the compiled state graph (`graph.py` lines 191-209)
plus the `END` sentinel, called `finish` here. -/
inductive GraphNode where
  | reasoningEngine
  | toolExecutor
  | reflection
  | finish
deriving DecidableEq

/-- `graph_builder.set_entry_point("reasoning_engine")`. -/
def entryPoint : GraphNode := GraphNode.reasoningEngine

/-- `should_continue` (`graph.py` lines 131-147): routes on the `tool_calls`
of the last message; `none` models the exception a non-`AIMessage` would
raise (no handler in the source). -/
def should_continue (s : AgentState) : Option String :=
  (lastToolCalls s).map (fun tcs =>
    if tcs ≠ [] then "continue_to_tools" else "end")

/-- The map given to `add_conditional_edges` (`graph.py` lines 199-206):
`"continue_to_tools" -> tool_executor`, `"end" -> reflection`. -/
def conditionalRoute (label : String) : Option GraphNode :=
  if label = "continue_to_tools" then some GraphNode.toolExecutor
  else if label = "end" then some GraphNode.reflection
  else none

/-- The full edge relation of the compiled graph: the conditional edges out
of `reasoning_engine`, `tool_executor -> reasoning_engine`, and
`reflection -> END`. -/
def nextNode (s : AgentState) : GraphNode → Option GraphNode
  | GraphNode.reasoningEngine => (should_continue s).bind conditionalRoute
  | GraphNode.toolExecutor => some GraphNode.reasoningEngine
  | GraphNode.reflection => some GraphNode.finish
  | GraphNode.finish => none

/-- The mutating core operations of the Swarm Environment and the memory
index, as one alphabet, so invariants can be stated over arbitrary
interleavings of calls. -/
inductive SwarmOp where
  | reinforce (concept : String) (weight : ℚ)
  | evap (decayRate : ℚ)
  | addFact (fact sourceAgentId : String)
  | addTask (description sourceAgentId : String)
  | completeTask (taskId : Nat) (agent : String)
  | addMemory (content : String)
deriving DecidableEq

/-- Apply one core operation to the store. -/
def applyOp (env : SwarmEnv) : SwarmOp → SwarmEnv
  | SwarmOp.reinforce c w => reinforce_concept env c w
  | SwarmOp.evap r => evaporate env r
  | SwarmOp.addFact f a => add_fact env f a
  | SwarmOp.addTask d a => add_task env d a
  | SwarmOp.completeTask tid a => (mark_task_as_completed env tid a).1
  | SwarmOp.addMemory content => add_long_term_memory env content

/-- Apply a sequence of core operations, oldest first. -/
def applyOps (env : SwarmEnv) : List SwarmOp → SwarmEnv
  | [] => env
  | op :: ops => applyOps (applyOp env op) ops

section ListHelpers

variable {α : Type} {β : Type}

/-- If the first match of `q` also passes the filter `keep`, filtering does
not change the first match. -/
theorem find?_filter_of_find? (q keep : α → Bool) :
    ∀ (l : List α) (x : α), l.find? q = some x → keep x = true →
      (l.filter keep).find? q = some x := by
  intro l
  induction l with
  | nil => intro x hx; simp at hx
  | cons y ys ih =>
    intro x hx hk
    by_cases hq : q y = true
    · rw [List.find?_cons_of_pos _ hq] at hx
      cases hx
      rw [List.filter_cons_of_pos hk, List.find?_cons_of_pos _ hq]
    · rw [List.find?_cons_of_neg _ hq] at hx
      by_cases hky : keep y = true
      · rw [List.filter_cons_of_pos hky, List.find?_cons_of_neg _ hq]
        exact ih x hx hk
      · rw [List.filter_cons_of_neg (by simpa using hky)]
        exact ih x hx hk

/-- In a list whose images under a key function are pairwise distinct, the
first element sharing a member's key is that member itself. -/
theorem find?_key_of_nodup [DecidableEq β] (f : α → β) :
    ∀ (l : List α) (a : α), (l.map f).Nodup → a ∈ l →
      l.find? (fun x => f x = f a) = some a := by
  intro l
  induction l with
  | nil => intro a _ ha; simp at ha
  | cons y ys ih =>
    intro a hnd ha
    rw [List.map_cons, List.nodup_cons] at hnd
    rcases List.mem_cons.mp ha with rfl | hmem
    · exact List.find?_cons_of_pos _ (by simp)
    · have hne : f y ≠ f a := by
        intro hEq
        exact hnd.1 (hEq ▸ List.mem_map_of_mem f hmem)
      rw [List.find?_cons_of_neg _ (by simpa using hne)]
      exact ih a hnd.2 hmem

/-- `find?` commutes with mapping a function that does not change the
predicate. -/
theorem find?_map_of_pred_eq (g : α → α) (p : α → Bool)
    (hg : ∀ x, p (g x) = p x) (l : List α) :
    (l.map g).find? p = (l.find? p).map g := by
  rw [List.find?_map]
  have hpg : p ∘ g = p := funext fun x => hg x
  rw [hpg]

end ListHelpers

/-! Lookup lemmas for the `tasks` table. -/

/-- The update of `mark_task_as_completed` commutes with `taskOf`. -/
theorem taskOf_mark (env : SwarmEnv) (tid : Nat) (b : String) (tid2 : Nat) :
    taskOf (mark_task_as_completed env tid b).1 tid2
      = (taskOf env tid2).map (fun t =>
          if t.id = tid ∧ t.assignedAgentId = some b then
            { t with status := TaskStatus.completed, completedAt := some env.clock }
          else t) := by
  unfold taskOf mark_task_as_completed
  simp only
  apply find?_map_of_pred_eq
  intro t
  by_cases h : t.id = tid ∧ t.assignedAgentId = some b <;> simp [h]

/-- The `rowcount > 0` test of `mark_task_as_completed`: success exactly
when some row has the given id and assignee. -/
theorem mark_snd_eq_ok (env : SwarmEnv) (tid : Nat) (b : String) :
    (mark_task_as_completed env tid b).2 = TaskResult.ok
      ↔ ∃ t ∈ env.tasks, t.id = tid ∧ t.assignedAgentId = some b := by
  unfold mark_task_as_completed
  simp only
  by_cases h : env.tasks.any (fun t => t.id = tid ∧ t.assignedAgentId = some b) = true
  · simp only [h, if_true, true_iff]
    simpa using h
  · simp only [h, if_false]
    constructor
    · intro hc; cases hc
    · intro hex
      exact absurd (by simpa using hex) h

/-- `add_task` does not disturb the lookup of an existing task row. -/
theorem taskOf_addTask_old (env : SwarmEnv) (d a : String) (tid : Nat)
    (t : TaskRow) (h : taskOf env tid = some t) :
    taskOf (add_task env d a) tid = some t := by
  unfold taskOf at h ⊢
  unfold add_task
  simp only [List.find?_append, h, Option.or_some]

/-- The row `add_task` inserts, looked up by the fresh id: requires every
existing id to be below the auto-increment counter. -/
theorem taskOf_addTask_new (env : SwarmEnv) (d a : String)
    (hlt : ∀ t ∈ env.tasks, t.id < env.nextTaskId) :
    taskOf (add_task env d a) env.nextTaskId
      = some ⟨env.nextTaskId, d, TaskStatus.pending, some a, env.clock, none⟩ := by
  unfold taskOf add_task
  simp only [List.find?_append]
  have hnone : env.tasks.find? (fun t => t.id = env.nextTaskId) = none := by
    rw [List.find?_eq_none]
    intro t ht
    simpa using Nat.ne_of_lt (hlt t ht)
  rw [hnone]
  simp

/-- A member of a table with pairwise-distinct ids is what lookup by its id
returns. -/
theorem taskOf_of_mem (env : SwarmEnv) (u : TaskRow)
    (hnd : (env.tasks.map TaskRow.id).Nodup) (hm : u ∈ env.tasks) :
    taskOf env u.id = some u :=
  find?_key_of_nodup TaskRow.id env.tasks u hnd hm

/-! Lookup lemmas for the `concepts` table. -/

/-- Reinforcing an existing concept adds the weight to its pheromone
(the `ON CONFLICT ... DO UPDATE` branch). -/
theorem pheromoneOf_reinforce_present (env : SwarmEnv) (c : String) (w p : ℚ)
    (h : pheromoneOf env c = some p) :
    pheromoneOf (reinforce_concept env c w) c = some (p + w) := by
  unfold pheromoneOf at h ⊢
  obtain ⟨row, hrow, hp⟩ :
      ∃ row, env.concepts.find? (fun r => r.name = c) = some row
        ∧ row.pheromone = p := by
    cases hf : env.concepts.find? (fun r => r.name = c) with
    | none => rw [hf] at h; simp at h
    | some row => rw [hf] at h; exact ⟨row, rfl, by simpa using h⟩
  have hpa := List.find?_some hrow
  have hany : env.concepts.any (fun r => r.name = c) = true := by
    rw [List.any_eq_true]
    exact ⟨row, List.mem_of_find?_eq_some hrow, hpa⟩
  unfold reinforce_concept
  rw [if_pos (by simpa using hany)]
  simp only
  rw [find?_map_of_pred_eq _ _
    (fun x => by by_cases hx : x.name = c <;> simp [hx]), hrow]
  have hname : row.name = c := by simpa using hpa
  simp [hname, hp]

/-- Reinforcing an absent concept creates it with the weight as pheromone
(the plain `INSERT` branch). -/
theorem pheromoneOf_reinforce_absent (env : SwarmEnv) (c : String) (w : ℚ)
    (h : pheromoneOf env c = none) :
    pheromoneOf (reinforce_concept env c w) c = some w := by
  unfold pheromoneOf at h ⊢
  have hf : env.concepts.find? (fun r => r.name = c) = none := by
    cases hf : env.concepts.find? (fun r => r.name = c) with
    | none => rfl
    | some row => rw [hf] at h; simp at h
  have hany : ¬ env.concepts.any (fun r => r.name = c) = true := by
    rw [List.any_eq_true]
    rintro ⟨x, hx, hpx⟩
    exact absurd hpx (by simpa using List.find?_eq_none.mp hf x hx)
  unfold reinforce_concept
  rw [if_neg (by simpa using hany)]
  simp only [List.find?_append, hf]
  simp

/-- Evaporation multiplies a stored pheromone by `(1 - r)`; when the result
stays at or above the deletion threshold `0.01`, the concept survives with
exactly that value. -/
theorem pheromoneOf_evaporate_kept (env : SwarmEnv) (c : String) (r p : ℚ)
    (h : pheromoneOf env c = some p) (hk : (1 : ℚ)/100 ≤ p * (1 - r)) :
    pheromoneOf (evaporate env r) c = some (p * (1 - r)) := by
  unfold pheromoneOf at h ⊢
  obtain ⟨row, hrow, hp⟩ :
      ∃ row, env.concepts.find? (fun x => x.name = c) = some row
        ∧ row.pheromone = p := by
    cases hf : env.concepts.find? (fun x => x.name = c) with
    | none => rw [hf] at h; simp at h
    | some row => rw [hf] at h; exact ⟨row, rfl, by simpa using h⟩
  unfold evaporate
  simp only
  have h1 : (env.concepts.map (fun x =>
      { x with pheromone := x.pheromone * (1 - r) })).find?
        (fun x => x.name = c)
      = some { row with pheromone := row.pheromone * (1 - r) } := by
    rw [find?_map_of_pred_eq _ _ (fun x => by simp), hrow]
    rfl
  have h2 : (decide ((1 : ℚ)/100 ≤
      ({ row with pheromone := row.pheromone * (1 - r) } : ConceptRow).pheromone))
        = true := by
    simp only [hp]
    exact decide_eq_true hk
  rw [find?_filter_of_find? _ _ _ _ h1 h2]
  simp [hp]

/-- Every row surviving an evaporation passes is at or above the deletion
threshold. -/
theorem evaporate_mem_threshold (env : SwarmEnv) (r : ℚ) (x : ConceptRow)
    (hx : x ∈ (evaporate env r).concepts) : (1 : ℚ)/100 ≤ x.pheromone := by
  unfold evaporate at hx
  simp only [List.mem_filter] at hx
  simpa using hx.2

/-! The concept operations leave the other tables alone, and vice versa. -/

theorem taskOf_reinforce (env : SwarmEnv) (c : String) (w : ℚ) (tid : Nat) :
    taskOf (reinforce_concept env c w) tid = taskOf env tid := by
  unfold reinforce_concept
  split <;> rfl

theorem taskOf_evaporate (env : SwarmEnv) (r : ℚ) (tid : Nat) :
    taskOf (evaporate env r) tid = taskOf env tid := rfl

theorem taskOf_addFact (env : SwarmEnv) (f a : String) (tid : Nat) :
    taskOf (add_fact env f a) tid = taskOf env tid := rfl

theorem taskOf_addMemory (env : SwarmEnv) (content : String) (tid : Nat) :
    taskOf (add_long_term_memory env content) tid = taskOf env tid := rfl

/-! Preservation of the reachable-state invariant. -/

theorem swarmWf_reinforce (env : SwarmEnv) (c : String) (w : ℚ)
    (h : SwarmWf env) : SwarmWf (reinforce_concept env c w) := by
  obtain ⟨h1, h2, h3⟩ := h
  unfold reinforce_concept
  split <;> exact ⟨h1, h2, fun f hf => Nat.lt_succ_of_lt (h3 f hf)⟩

theorem swarmWf_evaporate (env : SwarmEnv) (r : ℚ)
    (h : SwarmWf env) : SwarmWf (evaporate env r) := h

theorem swarmWf_addFact (env : SwarmEnv) (f a : String)
    (h : SwarmWf env) : SwarmWf (add_fact env f a) := by
  obtain ⟨h1, h2, h3⟩ := h
  refine ⟨h1, h2, ?_⟩
  intro x hx
  simp only [add_fact, List.mem_append, List.mem_singleton] at hx
  rcases hx with hx | rfl
  · exact Nat.lt_succ_of_lt (h3 x hx)
  · exact Nat.lt_succ_self _

theorem swarmWf_addMemory (env : SwarmEnv) (content : String)
    (h : SwarmWf env) : SwarmWf (add_long_term_memory env content) := by
  obtain ⟨h1, h2, h3⟩ := h
  exact ⟨h1, h2, fun f hf => Nat.lt_succ_of_lt (h3 f hf)⟩

theorem swarmWf_addTask (env : SwarmEnv) (d a : String)
    (h : SwarmWf env) : SwarmWf (add_task env d a) := by
  obtain ⟨h1, h2, h3⟩ := h
  refine ⟨?_, ?_, ?_⟩
  · intro t ht
    simp only [add_task, List.mem_append, List.mem_singleton] at ht
    rcases ht with ht | rfl
    · exact Nat.lt_succ_of_lt (h1 t ht)
    · exact Nat.lt_succ_self _
  · simp only [add_task, List.map_append, List.map_cons, List.map_nil]
    rw [List.nodup_append]
    refine ⟨h2, List.nodup_singleton _, ?_⟩
    intro x hx hx2
    simp only [List.mem_singleton] at hx2
    subst hx2
    obtain ⟨t, ht, hteq⟩ := List.mem_map.mp hx
    exact absurd hteq (Nat.ne_of_lt (h1 t ht))
  · intro f hf
    exact Nat.lt_succ_of_lt (h3 f hf)

theorem swarmWf_mark (env : SwarmEnv) (tid : Nat) (b : String)
    (h : SwarmWf env) : SwarmWf (mark_task_as_completed env tid b).1 := by
  obtain ⟨h1, h2, h3⟩ := h
  have hid : ∀ u : TaskRow,
      ((fun t => if t.id = tid ∧ t.assignedAgentId = some b then
        { t with status := TaskStatus.completed, completedAt := some env.clock }
      else t) u).id = u.id := by
    intro u
    by_cases hu : u.id = tid ∧ u.assignedAgentId = some b <;> simp [hu]
  refine ⟨?_, ?_, ?_⟩
  · intro t ht
    simp only [mark_task_as_completed, List.mem_map] at ht
    obtain ⟨u, hu, hueq⟩ := ht
    have : t.id = u.id := by rw [← hueq]; exact hid u
    rw [this]
    exact h1 u hu
  · simp only [mark_task_as_completed, List.map_map]
    have : (TaskRow.id ∘ fun t =>
        if t.id = tid ∧ t.assignedAgentId = some b then
          { t with status := TaskStatus.completed, completedAt := some env.clock }
        else t) = TaskRow.id := funext fun u => hid u
    rw [this]
    exact h2
  · intro f hf
    exact Nat.lt_succ_of_lt (h3 f hf)

theorem swarmWf_applyOp (env : SwarmEnv) (op : SwarmOp)
    (h : SwarmWf env) : SwarmWf (applyOp env op) := by
  cases op with
  | reinforce c w => exact swarmWf_reinforce env c w h
  | evap r => exact swarmWf_evaporate env r h
  | addFact f a => exact swarmWf_addFact env f a h
  | addTask d a => exact swarmWf_addTask env d a h
  | completeTask tid a => exact swarmWf_mark env tid a h
  | addMemory content => exact swarmWf_addMemory env content h

theorem swarmWf_applyOps (ops : List SwarmOp) :
    ∀ env : SwarmEnv, SwarmWf env → SwarmWf (applyOps env ops) := by
  induction ops with
  | nil => intro env h; exact h
  | cons op ops ih => intro env h; exact ih _ (swarmWf_applyOp env op h)

/-- No core operation changes the id or the assignee of a stored task row,
and a completed task never becomes un-completed. -/
theorem taskOf_applyOp_pres (env : SwarmEnv) (op : SwarmOp) (tid : Nat)
    (t : TaskRow) (h : taskOf env tid = some t) :
    ∃ t2, taskOf (applyOp env op) tid = some t2
      ∧ t2.id = t.id ∧ t2.assignedAgentId = t.assignedAgentId
      ∧ (t.status = TaskStatus.completed → t2.status = TaskStatus.completed) := by
  cases op with
  | reinforce c w =>
    exact ⟨t, by rw [applyOp, taskOf_reinforce]; exact h, rfl, rfl, fun hc => hc⟩
  | evap r =>
    exact ⟨t, by rw [applyOp, taskOf_evaporate]; exact h, rfl, rfl, fun hc => hc⟩
  | addFact f a =>
    exact ⟨t, by rw [applyOp, taskOf_addFact]; exact h, rfl, rfl, fun hc => hc⟩
  | addMemory content =>
    exact ⟨t, by rw [applyOp, taskOf_addMemory]; exact h, rfl, rfl, fun hc => hc⟩
  | addTask d a =>
    exact ⟨t, by rw [applyOp]; exact taskOf_addTask_old env d a tid t h,
      rfl, rfl, fun hc => hc⟩
  | completeTask tid2 agent =>
    by_cases hcond : t.id = tid2 ∧ t.assignedAgentId = some agent
    · refine ⟨{ t with
        status := TaskStatus.completed
        completedAt := some env.clock }, ?_, rfl, rfl, fun _ => rfl⟩
      rw [applyOp, taskOf_mark, h]
      simp [hcond]
    · refine ⟨t, ?_, rfl, rfl, fun hc => hc⟩
      rw [applyOp, taskOf_mark, h]
      simp [hcond]

/-- Once a task row is completed, it stays completed under every further
sequence of core operations. -/
theorem completed_stays (ops : List SwarmOp) (tid : Nat) :
    ∀ (env : SwarmEnv) (t : TaskRow), taskOf env tid = some t →
      t.status = TaskStatus.completed →
      ∃ t2, taskOf (applyOps env ops) tid = some t2
        ∧ t2.status = TaskStatus.completed := by
  induction ops with
  | nil => intro env t h hc; exact ⟨t, h, hc⟩
  | cons op ops ih =>
    intro env t h hc
    obtain ⟨t2, h2, _, _, hcomp⟩ := taskOf_applyOp_pres env op tid t h
    exact ih (applyOp env op) t2 h2 (hcomp hc)

/-- Rows returned by `get_available_tasks` are stored rows with status
'pending'. -/
theorem mem_available (env : SwarmEnv) (k : Nat) (u : TaskRow)
    (hu : u ∈ get_available_tasks env k) :
    u ∈ env.tasks ∧ u.status = TaskStatus.pending := by
  unfold get_available_tasks at hu
  have h1 := List.mem_of_mem_take hu
  rw [List.mem_insertionSort, List.mem_filter] at h1
  exact ⟨h1.1, by simpa using h1.2⟩

/-- A completed task id never shows up in `get_available_tasks`. -/
theorem completed_not_available (env : SwarmEnv) (tid : Nat) (t : TaskRow)
    (hnd : (env.tasks.map TaskRow.id).Nodup)
    (h : taskOf env tid = some t) (hc : t.status = TaskStatus.completed)
    (k : Nat) : tid ∉ (get_available_tasks env k).map TaskRow.id := by
  intro hmem
  obtain ⟨u, hu, huid⟩ := List.mem_map.mp hmem
  obtain ⟨humem, hupend⟩ := mem_available env k u hu
  have hfind := taskOf_of_mem env u hnd humem
  rw [huid, h] at hfind
  cases hfind
  rw [hupend] at hc
  cases hc

/-! Order properties of the three `ORDER BY ... LIMIT` queries. -/

instance : IsTotal ConceptRow (fun a b => b.pheromone ≤ a.pheromone) :=
  ⟨fun a b => le_total b.pheromone a.pheromone⟩

instance : IsTrans ConceptRow (fun a b => b.pheromone ≤ a.pheromone) :=
  ⟨fun _ _ _ h1 h2 => le_trans h2 h1⟩

instance : IsTotal FactRow (fun a b => b.timestamp ≤ a.timestamp) :=
  ⟨fun a b => le_total b.timestamp a.timestamp⟩

instance : IsTrans FactRow (fun a b => b.timestamp ≤ a.timestamp) :=
  ⟨fun _ _ _ h1 h2 => le_trans h2 h1⟩

instance : IsTotal TaskRow (fun a b => a.createdAt ≤ b.createdAt) :=
  ⟨fun a b => le_total a.createdAt b.createdAt⟩

instance : IsTrans TaskRow (fun a b => a.createdAt ≤ b.createdAt) :=
  ⟨fun _ _ _ h1 h2 => le_trans h1 h2⟩

theorem strongest_length_le (env : SwarmEnv) (k : Nat) :
    (get_strongest_concepts env k).length ≤ k := by
  unfold get_strongest_concepts
  exact List.length_take_le _ _

theorem strongest_mem_pos (env : SwarmEnv) (k : Nat) (e : ConceptResult)
    (he : e ∈ get_strongest_concepts env k) : 0 < e.strength := by
  unfold get_strongest_concepts at he
  have h1 := List.mem_of_mem_take he
  obtain ⟨r, hr, hre⟩ := List.mem_map.mp h1
  rw [List.mem_insertionSort, List.mem_filter] at hr
  rw [← hre]
  simpa using hr.2

theorem strongest_sorted (env : SwarmEnv) (k : Nat) :
    ((get_strongest_concepts env k).map ConceptResult.strength).Sorted (· ≥ ·) := by
  unfold get_strongest_concepts
  rw [List.map_take]
  apply List.Pairwise.sublist (List.take_sublist _ _)
  rw [List.map_map]
  have hs := List.sorted_insertionSort
    (fun a b : ConceptRow => b.pheromone ≤ a.pheromone)
    (env.concepts.filter (fun r => 0 < r.pheromone))
  exact List.pairwise_map.mpr hs

theorem available_length_le (env : SwarmEnv) (k : Nat) :
    (get_available_tasks env k).length ≤ k := by
  unfold get_available_tasks
  exact List.length_take_le _ _

theorem available_sorted (env : SwarmEnv) (k : Nat) :
    ((get_available_tasks env k).map TaskRow.createdAt).Sorted (· ≤ ·) := by
  unfold get_available_tasks
  rw [List.map_take]
  apply List.Pairwise.sublist (List.take_sublist _ _)
  have hs := List.sorted_insertionSort
    (fun a b : TaskRow => a.createdAt ≤ b.createdAt)
    (env.tasks.filter (fun t => t.status = TaskStatus.pending))
  exact List.pairwise_map.mpr hs

theorem fact_rows_sorted (env : SwarmEnv) (q : Option String) (k : Nat) :
    ((get_fact_rows env q k).map FactRow.timestamp).Sorted (· ≥ ·) := by
  unfold get_fact_rows
  rw [List.map_take]
  apply List.Pairwise.sublist (List.take_sublist _ _)
  have hs := List.sorted_insertionSort
    (fun a b : FactRow => b.timestamp ≤ a.timestamp)
    (match q with
      | some s => if s = "" then env.facts
                  else env.facts.filter (fun f => likeMatch s f.content)
      | none => env.facts)
  exact List.pairwise_map.mpr hs

/-! Call sequences against a single concept, for the pheromone-fold claim. -/

/-- One call affecting a fixed concept: `reinforce_concept` with some
weight, or a global `evaporate` with some rate. -/
inductive PherCall where
  | reinforce (w : ℚ)
  | evap (r : ℚ)
deriving DecidableEq

/-- Run one call of the sequence against the store. -/
def applyPherCall (env : SwarmEnv) (c : String) : PherCall → SwarmEnv
  | PherCall.reinforce w => reinforce_concept env c w
  | PherCall.evap r => evaporate env r

/-- Run a call sequence against the store, in call order. -/
def runPherCalls (env : SwarmEnv) (c : String) : List PherCall → SwarmEnv
  | [] => env
  | k :: ks => runPherCalls (applyPherCall env c k) c ks

/-- The arithmetic a single call performs on a pheromone value: add the
weight, or multiply by `(1 - rate)`. -/
def stepPher (p : ℚ) : PherCall → ℚ
  | PherCall.reinforce w => p + w
  | PherCall.evap r => p * (1 - r)

/-- The fold of the spec: apply the per-call arithmetic in call order,
starting from the creating weight. -/
def pherFold (w0 : ℚ) (ks : List PherCall) : ℚ := ks.foldl stepPher w0

/-- The sequence never drives the concept below the `0.01` deletion
threshold at an evaporation step (so the row is never pruned). -/
def neverPruned (p : ℚ) : List PherCall → Bool
  | [] => true
  | k :: ks =>
    (match k with
     | PherCall.evap r => decide ((1 : ℚ)/100 ≤ p * (1 - r))
     | PherCall.reinforce _ => true) && neverPruned (stepPher p k) ks

/-- As long as no evaporation prunes the concept, its stored pheromone
tracks the fold of the call arithmetic. -/
theorem pher_fold_aux (c : String) (ks : List PherCall) :
    ∀ (env : SwarmEnv) (p : ℚ), pheromoneOf env c = some p →
      neverPruned p ks = true →
      pheromoneOf (runPherCalls env c ks) c = some (pherFold p ks) := by
  induction ks with
  | nil => intro env p h _; exact h
  | cons k ks ih =>
    intro env p h hnp
    cases k with
    | reinforce w =>
      simp only [neverPruned, Bool.true_and] at hnp
      exact ih _ _ (pheromoneOf_reinforce_present env c w p h) hnp
    | evap r =>
      simp only [neverPruned, Bool.and_eq_true, decide_eq_true_eq] at hnp
      exact ih _ _ (pheromoneOf_evaporate_kept env c r p h hnp.1) hnp.2

/-- When an evaporation pushes a (uniquely named) concept below the
threshold, no surviving row carries its name. -/
theorem evaporate_name_gone (env : SwarmEnv) (r p : ℚ) (c : String)
    (hnd : (env.concepts.map ConceptRow.name).Nodup)
    (h : pheromoneOf env c = some p) (hlt : p * (1 - r) < 1/100) :
    ∀ x ∈ (evaporate env r).concepts, x.name ≠ c := by
  intro x hx hxc
  unfold evaporate at hx
  simp only [List.mem_filter, List.mem_map] at hx
  obtain ⟨⟨u, hu, hux⟩, hkeep⟩ := hx
  have hun : u.name = c := by rw [← hxc, ← hux]
  obtain ⟨row, hrow, hp⟩ :
      ∃ row, env.concepts.find? (fun y => y.name = c) = some row
        ∧ row.pheromone = p := by
    unfold pheromoneOf at h
    cases hf : env.concepts.find? (fun y => y.name = c) with
    | none => rw [hf] at h; simp at h
    | some row => rw [hf] at h; exact ⟨row, rfl, by simpa using h⟩
  have h2 := find?_key_of_nodup ConceptRow.name env.concepts u hnd hu
  rw [hun] at h2
  rw [hrow] at h2
  have hurow : row = u := by simpa using h2
  have hxp : x.pheromone = p * (1 - r) := by
    rw [← hux, ← hp, hurow]
  have hge : (1 : ℚ)/100 ≤ x.pheromone := of_decide_eq_true hkeep
  rw [hxp] at hge
  exact absurd hlt (not_lt.mpr hge)

/-- Every name shown by `get_strongest_concepts` is the name of a stored
concept row. -/
theorem strongest_concept_names (env : SwarmEnv) (k : Nat) (c : String)
    (hc : c ∈ (get_strongest_concepts env k).map ConceptResult.concept) :
    ∃ u ∈ env.concepts, u.name = c := by
  unfold get_strongest_concepts at hc
  obtain ⟨e, he, hec⟩ := List.mem_map.mp hc
  have h1 := List.mem_of_mem_take he
  obtain ⟨u, hu, hue⟩ := List.mem_map.mp h1
  rw [List.mem_insertionSort, List.mem_filter] at hu
  refine ⟨u, hu.1, ?_⟩
  rw [← hec, ← hue]

/-! ## Claim theorems -/

/-- C5: for every store state and limit `k`, `get_strongest_concepts`
returns at most `k` entries, sorted descending by strength (the embedding
is a pure function over the table using a stable sort, so tie order is
deterministic), and never includes a concept whose pheromone is ≤ 0. -/
theorem C5_strongest_concepts_shape (env : SwarmEnv) (k : Nat) :
    (get_strongest_concepts env k).length ≤ k
    ∧ ((get_strongest_concepts env k).map ConceptResult.strength).Sorted (· ≥ ·)
    ∧ ∀ e ∈ get_strongest_concepts env k, 0 < e.strength :=
  ⟨strongest_length_le env k, strongest_sorted env k,
    fun e he => strongest_mem_pos env k e he⟩

/-- C5 witness: on a store holding a single reinforced concept, the listed
entry indeed has positive strength. -/
theorem C5_strongest_concepts_shape_w :
    0 < (ConceptResult.mk "cats" 1).strength := by
  refine (C5_strongest_concepts_shape (reinforce_concept emptySwarmEnv "cats" 1) 5).2.2
    (ConceptResult.mk "cats" 1) ?_
  norm_num [get_strongest_concepts, reinforce_concept, emptySwarmEnv]

/-- C4: `evaporate` is a single transition that multiplies every stored
pheromone by `(1 - r)` and then drops every row below `0.01` (the map/filter
equation below is the whole mutation, so no interleaving can observe a
partially decayed table); every surviving row is at or above the threshold;
and a (uniquely named) concept pushed below the threshold is absent from
`get_strongest_concepts` of the resulting store for every limit. -/
theorem C4_evaporate_all_or_nothing :
    (∀ (env : SwarmEnv) (r : ℚ),
      (evaporate env r).concepts
        = (env.concepts.map
            (fun x => { x with pheromone := x.pheromone * (1 - r) })).filter
            (fun x => (1 : ℚ)/100 ≤ x.pheromone))
    ∧ (∀ (env : SwarmEnv) (r : ℚ) (x : ConceptRow),
        x ∈ (evaporate env r).concepts → (1 : ℚ)/100 ≤ x.pheromone)
    ∧ (∀ (env : SwarmEnv) (r p : ℚ) (c : String),
        (env.concepts.map ConceptRow.name).Nodup →
        pheromoneOf env c = some p → p * (1 - r) < 1/100 →
        ∀ k, c ∉ (get_strongest_concepts (evaporate env r) k).map
          ConceptResult.concept) := by
  refine ⟨fun env r => rfl, fun env r x hx => evaporate_mem_threshold env r x hx,
    ?_⟩
  intro env r p c hnd h hlt k hc
  obtain ⟨u, hu, hun⟩ := strongest_concept_names (evaporate env r) k c hc
  exact evaporate_name_gone env r p c hnd h hlt u hu hun

/-- C4 witness: a concept created at pheromone `1/200` is below the `0.01`
threshold after an evaporation with rate 0 and no longer listed. -/
theorem C4_evaporate_all_or_nothing_w :
    "x" ∉ (get_strongest_concepts
        (evaporate (reinforce_concept emptySwarmEnv "x" (1/200)) 0) 5).map
        ConceptResult.concept := by
  refine C4_evaporate_all_or_nothing.2.2
    (reinforce_concept emptySwarmEnv "x" (1/200)) 0 (1/200) "x" ?_ ?_ ?_ 5
  · decide
  · norm_num [pheromoneOf, reinforce_concept, emptySwarmEnv]
  · norm_num

/-- C3 counterexample: the claimed fold identity fails once an evaporation
prunes the concept. Create `c` at weight 1, evaporate with rate `999/1000`
(the row falls to `1/1000 < 0.01` and is deleted), then reinforce with
weight 1: the store holds pheromone 1, but the fold predicts `1001/1000`. -/
theorem C3_pheromone_fold_cex :
    pheromoneOf (runPherCalls (reinforce_concept emptySwarmEnv "c" 1) "c"
        [PherCall.evap (999/1000), PherCall.reinforce 1]) "c" = some 1
    ∧ pherFold 1 [PherCall.evap (999/1000), PherCall.reinforce 1] = 1001/1000
    ∧ (1 : ℚ) ≠ 1001/1000 := by
  refine ⟨?_, ?_, by norm_num⟩
  · norm_num [runPherCalls, applyPherCall, reinforce_concept, evaporate,
      pheromoneOf, emptySwarmEnv]
  · norm_num [pherFold, stepPher]

/-- C3 (amended): starting from a store without concept `c`, a creating
`reinforce_concept` call followed by any sequence of reinforcements and
evaporations leaves `c` at exactly the fold of the call arithmetic in call
order — provided no intervening evaporation drops `c` strictly below the
`0.01` deletion threshold. -/
theorem C3_pheromone_fold (env : SwarmEnv) (c : String) (w0 : ℚ)
    (ks : List PherCall) (habs : pheromoneOf env c = none)
    (hnp : neverPruned w0 ks = true) :
    pheromoneOf (runPherCalls (reinforce_concept env c w0) c ks) c
      = some (pherFold w0 ks) :=
  pher_fold_aux c ks (reinforce_concept env c w0) w0
    (pheromoneOf_reinforce_absent env c w0 habs) hnp

/-- C3 witness: the cats scenario — three reinforcements of weight 1, then
one evaporation at rate 0.1, give strength exactly `3 * 0.9 = 2.7`. -/
theorem C3_pheromone_fold_w :
    pheromoneOf (runPherCalls (reinforce_concept emptySwarmEnv "cats" 1) "cats"
        [PherCall.reinforce 1, PherCall.reinforce 1, PherCall.evap (1/10)])
        "cats" = some (27/10) := by
  have h := C3_pheromone_fold emptySwarmEnv "cats" 1
    [PherCall.reinforce 1, PherCall.reinforce 1, PherCall.evap (1/10)]
    (by norm_num [pheromoneOf, emptySwarmEnv])
    (by norm_num [neverPruned, stepPher])
  have h2 : pherFold 1
      [PherCall.reinforce 1, PherCall.reinforce 1, PherCall.evap (1/10)]
        = 27/10 := by
    norm_num [pherFold, stepPher]
  rw [h2] at h
  exact h

/-- C1: `mark_task_as_completed` succeeds (and then sets the stored row to
'completed' with `completed_at` stamped) exactly when the task's current
`assigned_agent_id` equals the calling agent; on a mismatch it reports the
not-owned outcome and the stored row is entirely unchanged. -/
theorem C1_complete_task_ownership (env : SwarmEnv) (tid : Nat) (t : TaskRow)
    (b : String) (hnd : (env.tasks.map TaskRow.id).Nodup)
    (ht : taskOf env tid = some t) :
    ((mark_task_as_completed env tid b).2 = TaskResult.ok
      ↔ t.assignedAgentId = some b)
    ∧ (t.assignedAgentId = some b →
        taskOf (mark_task_as_completed env tid b).1 tid
          = some { t with status := TaskStatus.completed,
                          completedAt := some env.clock })
    ∧ (t.assignedAgentId ≠ some b →
        (mark_task_as_completed env tid b).2 = TaskResult.notOwned
        ∧ taskOf (mark_task_as_completed env tid b).1 tid = some t) := by
  have htid : t.id = tid := by simpa using List.find?_some ht
  have hmem : t ∈ env.tasks := List.mem_of_find?_eq_some ht
  have hok : (mark_task_as_completed env tid b).2 = TaskResult.ok
      ↔ t.assignedAgentId = some b := by
    rw [mark_snd_eq_ok]
    constructor
    · rintro ⟨u, hu, huid, hub⟩
      have hfu := taskOf_of_mem env u hnd hu
      rw [huid, ht] at hfu
      cases hfu
      exact hub
    · intro hb
      exact ⟨t, hmem, htid, hb⟩
  refine ⟨hok, ?_, ?_⟩
  · intro hb
    rw [taskOf_mark, ht]
    simp [htid, hb]
  · intro hb
    constructor
    · cases hres : (mark_task_as_completed env tid b).2 with
      | ok => exact absurd (hok.mp hres) hb
      | notOwned => rfl
    · rw [taskOf_mark, ht]
      have : ¬ (t.id = tid ∧ t.assignedAgentId = some b) := by
        rintro ⟨_, hb2⟩; exact hb hb2
      simp [this]

/-- C1 witness: a single stored task created by agent_1; completing it as
agent_1 succeeds and stamps the row. -/
theorem C1_complete_task_ownership_w :
    ((mark_task_as_completed (add_task emptySwarmEnv "t" "agent_1") 1
        "agent_1").2 = TaskResult.ok
      ↔ (TaskRow.mk 1 "t" TaskStatus.pending (some "agent_1") 0
          none).assignedAgentId = some "agent_1")
    ∧ ((TaskRow.mk 1 "t" TaskStatus.pending (some "agent_1") 0
          none).assignedAgentId = some "agent_1" →
        taskOf (mark_task_as_completed (add_task emptySwarmEnv "t" "agent_1")
            1 "agent_1").1 1
          = some { TaskRow.mk 1 "t" TaskStatus.pending (some "agent_1") 0
              none with
                status := TaskStatus.completed,
                completedAt :=
                  some (add_task emptySwarmEnv "t" "agent_1").clock })
    ∧ ((TaskRow.mk 1 "t" TaskStatus.pending (some "agent_1") 0
          none).assignedAgentId ≠ some "agent_1" →
        (mark_task_as_completed (add_task emptySwarmEnv "t" "agent_1") 1
          "agent_1").2 = TaskResult.notOwned
        ∧ taskOf (mark_task_as_completed (add_task emptySwarmEnv "t"
            "agent_1") 1 "agent_1").1 1
          = some (TaskRow.mk 1 "t" TaskStatus.pending (some "agent_1") 0
              none)) :=
  C1_complete_task_ownership (add_task emptySwarmEnv "t" "agent_1") 1
    (TaskRow.mk 1 "t" TaskStatus.pending (some "agent_1") 0 none) "agent_1"
    (by decide) (by decide)

/-- The two-task scenario of the spec: T1 ("research X", by A1) and T2
("research Y", by A2) created on a fresh store. -/
def scenarioTwoTasks : SwarmEnv :=
  add_task (add_task emptySwarmEnv "research X" "A1") "research Y" "A2"

/-- The scenario store after A1 completes T1. -/
def scenarioAfterComplete : SwarmEnv :=
  (mark_task_as_completed scenarioTwoTasks 1 "A1").1

/-- C6: `get_available_tasks` returns at most `k` rows, all 'pending',
ordered oldest-created-first; after a successful owner completion the task
id stays out of every later `get_available_tasks` result under any further
core operations; and in the concrete two-task scenario, completing T1
leaves exactly T2 available. -/
theorem C6_available_tasks (env : SwarmEnv) (k : Nat) :
    (get_available_tasks env k).length ≤ k
    ∧ (∀ t ∈ get_available_tasks env k, t.status = TaskStatus.pending)
    ∧ ((get_available_tasks env k).map TaskRow.createdAt).Sorted (· ≤ ·)
    ∧ (∀ (tid : Nat) (t : TaskRow) (b : String) (ops : List SwarmOp),
        SwarmWf env → taskOf env tid = some t →
        t.assignedAgentId = some b →
        (mark_task_as_completed env tid b).2 = TaskResult.ok
        ∧ ∀ k2, tid ∉ (get_available_tasks
            (applyOps (mark_task_as_completed env tid b).1 ops) k2).map
            TaskRow.id)
    ∧ get_available_tasks scenarioAfterComplete 5
        = [⟨2, "research Y", TaskStatus.pending, some "A2", 1, none⟩] := by
  refine ⟨available_length_le env k,
    fun t ht => (mem_available env k t ht).2,
    available_sorted env k, ?_, by decide⟩
  intro tid t b ops hwf ht hb
  have htid : t.id = tid := by simpa using List.find?_some ht
  have hmem : t ∈ env.tasks := List.mem_of_find?_eq_some ht
  constructor
  · rw [mark_snd_eq_ok]
    exact ⟨t, hmem, htid, hb⟩
  · intro k2
    have hwf1 : SwarmWf (mark_task_as_completed env tid b).1 :=
      swarmWf_mark env tid b hwf
    have ht1 : taskOf (mark_task_as_completed env tid b).1 tid
        = some { t with status := TaskStatus.completed,
                        completedAt := some env.clock } := by
      rw [taskOf_mark, ht]
      simp [htid, hb]
    obtain ⟨t2, ht2, hc2⟩ := completed_stays ops tid
      (mark_task_as_completed env tid b).1 _ ht1 rfl
    have hwf2 := swarmWf_applyOps ops _ hwf1
    exact completed_not_available _ tid t2 hwf2.2.1 ht2 hc2 k2

/-- C6 witness: in the two-task scenario, the owner completion of T1
succeeds and T1 is absent from every later availability query. -/
theorem C6_available_tasks_w :
    (mark_task_as_completed scenarioTwoTasks 1 "A1").2 = TaskResult.ok
    ∧ ∀ k2, 1 ∉ (get_available_tasks
        (applyOps (mark_task_as_completed scenarioTwoTasks 1 "A1").1 [])
        k2).map TaskRow.id :=
  (C6_available_tasks scenarioTwoTasks 5).2.2.2.1 1
    ⟨1, "research X", TaskStatus.pending, some "A1", 0, none⟩ "A1" []
    (by decide) (by decide) (by decide)

/-- C7: adding a fact and then querying with any case-insensitive substring
of it returns that fact first (it is the newest row), with its source agent
id; query results are always ordered newest-first; and for a non-empty
query every returned row matches the case-insensitive substring filter. -/
theorem C7_add_fact_roundtrip (env : SwarmEnv) (f a s : String) (k : Nat)
    (hwf : SwarmWf env) (hsub : likeMatch s f = true) (hk : 1 ≤ k) :
    (get_facts (add_fact env f a) (some s) k).head?
      = some (FactResult.mk f a)
    ∧ (∀ (env2 : SwarmEnv) (q : Option String) (k2 : Nat),
        ((get_fact_rows env2 q k2).map FactRow.timestamp).Sorted (· ≥ ·))
    ∧ (∀ (env2 : SwarmEnv) (q : String) (k2 : Nat) (x : FactRow), q ≠ "" →
        x ∈ get_fact_rows env2 (some q) k2 →
        likeMatch q x.content = true) := by
  refine ⟨?_, fun env2 q k2 => fact_rows_sorted env2 q k2, ?_⟩
  · set frow : FactRow := ⟨env.nextFactId, f, a, env.clock⟩ with hfrow
    have hrows : ∃ rows : List FactRow,
        get_fact_rows (add_fact env f a) (some s) k
          = (rows.insertionSort (fun a b => b.timestamp ≤ a.timestamp)).take k
        ∧ frow ∈ rows
        ∧ ∀ x ∈ rows, x ∈ env.facts ∨ x = frow := by
      by_cases hs : s = ""
      · refine ⟨(add_fact env f a).facts, by simp [get_fact_rows, hs], ?_, ?_⟩
        · simp [add_fact, hfrow]
        · intro x hx
          simpa [add_fact] using hx
      · refine ⟨(add_fact env f a).facts.filter
          (fun x => likeMatch s x.content), by simp [get_fact_rows, hs], ?_, ?_⟩
        · rw [List.mem_filter]
          constructor
          · simp [add_fact, hfrow]
          · simpa [hfrow] using hsub
        · intro x hx
          rw [List.mem_filter] at hx
          simpa [add_fact] using hx.1
    obtain ⟨rows, heq, hfmem, hsub2⟩ := hrows
    have hsorted := List.sorted_insertionSort
      (fun a b : FactRow => b.timestamp ≤ a.timestamp) rows
    have hmem2 : frow ∈ rows.insertionSort
        (fun a b => b.timestamp ≤ a.timestamp) := by
      rw [List.mem_insertionSort]; exact hfmem
    have hhead : (rows.insertionSort
        (fun a b => b.timestamp ≤ a.timestamp)).head? = some frow := by
      cases hsort : rows.insertionSort (fun a b => b.timestamp ≤ a.timestamp) with
      | nil => rw [hsort] at hmem2; cases hmem2
      | cons x xs =>
        by_cases hxf : x = frow
        · rw [hxf]
          rfl
        · rw [hsort] at hmem2 hsorted
          have hfxs : frow ∈ xs := by
            rcases List.mem_cons.mp hmem2 with h1 | h1
            · exact absurd h1.symm hxf
            · exact h1
          have hle : frow.timestamp ≤ x.timestamp :=
            List.rel_of_sorted_cons hsorted frow hfxs
          have hxrows : x ∈ rows := by
            rw [← List.mem_insertionSort
              (r := fun a b : FactRow => b.timestamp ≤ a.timestamp), hsort]
            exact List.mem_cons_self x xs
          rcases hsub2 x hxrows with hxold | hxfrow
          · have hlt : x.timestamp < env.clock := hwf.2.2 x hxold
            have : frow.timestamp = env.clock := rfl
            omega
          · exact absurd hxfrow hxf
    obtain ⟨k2, rfl⟩ : ∃ k2, k = k2 + 1 :=
      ⟨k - 1, (Nat.succ_pred_eq_of_pos hk).symm⟩
    unfold get_facts
    rw [heq, List.head?_map]
    cases hsort : rows.insertionSort (fun a b => b.timestamp ≤ a.timestamp) with
    | nil => rw [hsort] at hhead; cases hhead
    | cons x xs =>
      rw [hsort] at hhead
      have hx : x = frow := by simpa using hhead
      rw [List.take_succ_cons, hx]
      rfl
  · intro env2 q k2 x hq hx
    simp only [get_fact_rows] at hx
    rw [if_neg hq] at hx
    have h1 := List.mem_of_mem_take hx
    rw [List.mem_insertionSort, List.mem_filter] at h1
    exact h1.2

/-- C7 witness: add "The Cat Sat" by agent A1, query the case-variant
substring "cat": the fact comes back first with its source agent. -/
theorem C7_add_fact_roundtrip_w :
    (get_facts (add_fact emptySwarmEnv "The Cat Sat" "A1") (some "cat")
        5).head? = some (FactResult.mk "The Cat Sat" "A1") :=
  (C7_add_fact_roundtrip emptySwarmEnv "The Cat Sat" "A1" "cat" 5
    (by decide) (by decide) (by decide)).1

/-- A completion attempt by an agent that is not the stored assignee
reports the not-owned outcome and leaves the row untouched. -/
theorem mark_mismatch (env : SwarmEnv) (tid : Nat) (t : TaskRow) (b : String)
    (hnd : (env.tasks.map TaskRow.id).Nodup) (ht : taskOf env tid = some t)
    (hb : t.assignedAgentId ≠ some b) :
    (mark_task_as_completed env tid b).2 = TaskResult.notOwned
    ∧ taskOf (mark_task_as_completed env tid b).1 tid = some t := by
  constructor
  · cases hres : (mark_task_as_completed env tid b).2 with
    | notOwned => rfl
    | ok =>
      rw [mark_snd_eq_ok] at hres
      obtain ⟨u, hu, huid, hub⟩ := hres
      have hfu := taskOf_of_mem env u hnd hu
      rw [huid, ht] at hfu
      cases hfu
      exact absurd hub hb
  · rw [taskOf_mark, ht]
    have hc : ¬ (t.id = tid ∧ t.assignedAgentId = some b) := by
      rintro ⟨_, hb2⟩; exact hb hb2
    simp [hc]

/-- C10: `add_task` stamps `assigned_agent_id` with the creating agent at
insertion; no core operation ever changes a stored row's assignee; a
completion attempt by any other agent reports not-owned and leaves the row
unchanged; hence a task created by the system initializer stays pending
against every other caller. -/
theorem C10_assignment_at_creation :
    (∀ (env : SwarmEnv) (d a : String), SwarmWf env →
      taskOf (add_task env d a) env.nextTaskId
        = some ⟨env.nextTaskId, d, TaskStatus.pending, some a, env.clock,
            none⟩)
    ∧ (∀ (env : SwarmEnv) (op : SwarmOp) (tid : Nat) (t : TaskRow),
        taskOf env tid = some t →
        ∃ t2, taskOf (applyOp env op) tid = some t2
          ∧ t2.assignedAgentId = t.assignedAgentId)
    ∧ (∀ (env : SwarmEnv) (tid : Nat) (t : TaskRow) (b : String),
        (env.tasks.map TaskRow.id).Nodup → taskOf env tid = some t →
        t.assignedAgentId ≠ some b →
        (mark_task_as_completed env tid b).2 = TaskResult.notOwned
        ∧ taskOf (mark_task_as_completed env tid b).1 tid = some t)
    ∧ (∀ (env : SwarmEnv) (d b : String), SwarmWf env →
        b ≠ "system_initializer" →
        (mark_task_as_completed (add_task env d "system_initializer")
          env.nextTaskId b).2 = TaskResult.notOwned
        ∧ taskOf (mark_task_as_completed
            (add_task env d "system_initializer") env.nextTaskId b).1
            env.nextTaskId
          = some ⟨env.nextTaskId, d, TaskStatus.pending,
              some "system_initializer", env.clock, none⟩) := by
  refine ⟨?_, ?_, ?_, ?_⟩
  · intro env d a hwf
    exact taskOf_addTask_new env d a hwf.1
  · intro env op tid t ht
    obtain ⟨t2, h2, _, hassigned, _⟩ := taskOf_applyOp_pres env op tid t ht
    exact ⟨t2, h2, hassigned⟩
  · intro env tid t b hnd ht hb
    exact mark_mismatch env tid t b hnd ht hb
  · intro env d b hwf hb
    have hwf1 := swarmWf_addTask env d "system_initializer" hwf
    have ht := taskOf_addTask_new env d "system_initializer" hwf.1
    refine mark_mismatch (add_task env d "system_initializer")
      env.nextTaskId _ b hwf1.2.1 ht ?_
    intro hEq
    rw [Option.some_inj] at hEq
    exact hb hEq.symm

/-- C10 witness: the system initializer creates a task on a fresh store;
the row carries its id as assignee, and agent_1 cannot complete it. -/
theorem C10_assignment_at_creation_w :
    taskOf (add_task emptySwarmEnv "d" "system_initializer") 1
      = some ⟨1, "d", TaskStatus.pending, some "system_initializer", 0, none⟩
    ∧ (mark_task_as_completed
        (add_task emptySwarmEnv "d" "system_initializer") 1 "agent_1").2
      = TaskResult.notOwned := by
  constructor
  · exact C10_assignment_at_creation.1 emptySwarmEnv "d" "system_initializer"
      (by decide)
  · exact (C10_assignment_at_creation.2.2.2 emptySwarmEnv "d" "agent_1"
      (by decide) (by decide)).1

/-- C2: the control-loop transition table. From Reasoning the next node is
the tool executor exactly when the oracle's latest response carries at
least one tool invocation and the reflection node otherwise; the tool
executor always returns to Reasoning; reflection always ends the run; and
the entry point is always Reasoning. -/
theorem C2_transition_table (s : AgentState) (c : String)
    (tcs : List ToolCall)
    (hlast : s.messages.getLast? = some (Msg.ai c tcs)) :
    (nextNode s GraphNode.reasoningEngine
      = some (if tcs = [] then GraphNode.reflection
              else GraphNode.toolExecutor))
    ∧ (∀ s2 : AgentState,
        nextNode s2 GraphNode.toolExecutor = some GraphNode.reasoningEngine)
    ∧ (∀ s2 : AgentState,
        nextNode s2 GraphNode.reflection = some GraphNode.finish)
    ∧ entryPoint = GraphNode.reasoningEngine := by
  refine ⟨?_, fun s2 => rfl, fun s2 => rfl, rfl⟩
  unfold nextNode should_continue lastToolCalls
  rw [hlast]
  by_cases h : tcs = []
  · simp [h, conditionalRoute]
  · simp [h, conditionalRoute]

/-- C2 witness: a final answer without tool calls routes Reasoning to the
reflection node. -/
theorem C2_transition_table_w :
    nextNode (AgentState.mk [Msg.ai "done" []] "g" "" "" 0 [])
        GraphNode.reasoningEngine
      = some (if ([] : List ToolCall) = [] then GraphNode.reflection
              else GraphNode.toolExecutor) :=
  (C2_transition_table (AgentState.mk [Msg.ai "done" []] "g" "" "" 0 [])
    "done" [] rfl).1

/-- Capabilities and a batch of calls used to exercise the tool executor:
one succeeding tool, one raising tool, and a call to an unknown name. -/
def demoTools : List Tool :=
  [⟨"good", fun _ => Except.ok "fine"⟩,
   ⟨"bad", fun _ => Except.error "boom"⟩]

/-- The exercised batch: a succeeding call, a raising call, an unknown
capability, in that order. -/
def demoCalls : List ToolCall :=
  [⟨"good", "x", "id1"⟩, ⟨"bad", "y", "id2"⟩, ⟨"missing", "z", "id3"⟩]

/-- An agent state whose last message is an oracle response requesting
`demoCalls`. -/
def demoToolState : AgentState :=
  ⟨[Msg.human "hi", Msg.ai "act" demoCalls], "g", "", "", 0, []⟩

/-- C8: in the ToolExecuting state, the batch of requested invocations
produces exactly one tool result per invocation, appended to the message
history (and the tool-output log) in request order, each tied to its
invocation id; a raising capability yields its error text as result
content instead of a fatal error; an unknown capability yields a
"tool not found" result. -/
theorem C8_tool_executor_batch (tools : List Tool) (s : AgentState)
    (c : String) (tcs : List ToolCall)
    (hlast : s.messages.getLast? = some (Msg.ai c tcs)) :
    ((tool_executor_node tools s).messages
      = s.messages
        ++ tcs.map (fun tc => Msg.tool (toolResultContent tools tc) tc.id))
    ∧ ((tool_executor_node tools s).toolOutputs
      = s.toolOutputs
        ++ tcs.map (fun tc => Msg.tool (toolResultContent tools tc) tc.id))
    ∧ (∀ (tc : ToolCall) (t : Tool) (e : String),
        tools.find? (fun t0 => t0.name = tc.name) = some t →
        t.run tc.args = Except.error e →
        toolResultContent tools tc = "Error: " ++ e)
    ∧ (∀ (tc : ToolCall) (t : Tool) (out : String),
        tools.find? (fun t0 => t0.name = tc.name) = some t →
        t.run tc.args = Except.ok out →
        toolResultContent tools tc = out)
    ∧ (∀ tc : ToolCall,
        tools.find? (fun t0 => t0.name = tc.name) = none →
        toolResultContent tools tc
          = "Tool " ++ sq ++ tc.name ++ sq ++ " not found.") := by
  have hnode : lastToolCalls s = some tcs := by
    unfold lastToolCalls
    rw [hlast]
  refine ⟨?_, ?_, ?_, ?_, ?_⟩
  · simp [tool_executor_node, hnode, tool_executor]
  · simp [tool_executor_node, hnode, tool_executor]
  · intro tc t e hfind hrun
    simp [toolResultContent, hfind, hrun]
  · intro tc t out hfind hrun
    simp [toolResultContent, hfind, hrun]
  · intro tc hfind
    simp [toolResultContent, hfind]

/-- C8 witness: the three-call batch appends its results in request order,
and the raising capability surfaces its error text as the result. -/
theorem C8_tool_executor_batch_w :
    ((tool_executor_node demoTools demoToolState).messages
      = demoToolState.messages
        ++ demoCalls.map (fun tc =>
            Msg.tool (toolResultContent demoTools tc) tc.id))
    ∧ toolResultContent demoTools ⟨"bad", "y", "id2"⟩ = "Error: " ++ "boom" :=
  ⟨(C8_tool_executor_batch demoTools demoToolState "act" demoCalls rfl).1,
    (C8_tool_executor_batch demoTools demoToolState "act" demoCalls
      rfl).2.2.1 ⟨"bad", "y", "id2"⟩ ⟨"bad", fun _ => Except.error "boom"⟩
      "boom" rfl rfl⟩

/-- C9: an oracle failure (raised exception or timeout) in the Reasoning or
Reflecting state is caught, and the node returns the agent state — and, for
reflection, the store — exactly unchanged, so the same checkpoint is
retried on the next tick. -/
theorem C9_oracle_failure_retryable :
    (∀ (env : SwarmEnv) (oracle : ReasonOracle) (s : AgentState) (e : String),
      oracle (reasoningContext s (search_long_term_memory env s.input))
          (search_long_term_memory env s.input) s.input = Except.error e →
      reasoning_node env oracle s = s)
    ∧ (∀ (oracle : ReflectOracle) (env : SwarmEnv) (s : AgentState)
        (e : String), oracle s.messages = Except.error e →
        reflection_node oracle env s = (env, s)) := by
  constructor
  · intro env oracle s e hfail
    simp [reasoning_node, hfail]
  · intro oracle env s e hfail
    simp [reflection_node, hfail]

/-- C9 witness: a timing-out oracle leaves a concrete state (and store)
untouched in both nodes. -/
theorem C9_oracle_failure_retryable_w :
    reasoning_node emptySwarmEnv (fun _ _ _ => Except.error "timeout")
        (AgentState.mk [Msg.human "hi"] "g" "" "" 0 [])
      = AgentState.mk [Msg.human "hi"] "g" "" "" 0 []
    ∧ reflection_node (fun _ => Except.error "timeout") emptySwarmEnv
        (AgentState.mk [Msg.human "hi"] "g" "" "" 0 [])
      = (emptySwarmEnv, AgentState.mk [Msg.human "hi"] "g" "" "" 0 []) :=
  ⟨C9_oracle_failure_retryable.1 emptySwarmEnv
      (fun _ _ _ => Except.error "timeout")
      (AgentState.mk [Msg.human "hi"] "g" "" "" 0 []) "timeout" rfl,
    C9_oracle_failure_retryable.2 (fun _ => Except.error "timeout")
      emptySwarmEnv (AgentState.mk [Msg.human "hi"] "g" "" "" 0 [])
      "timeout" rfl⟩

example : pheromoneOf (reinforce_concept emptySwarmEnv "cats" 1) "cats" = some 1 := by
  decide

example :
    pheromoneOf (evaporate (reinforce_concept emptySwarmEnv "cats" 3) (1/10)) "cats"
      = some (27/10) := by
  norm_num [pheromoneOf, evaporate, reinforce_concept, emptySwarmEnv]

example :
    pheromoneOf (evaporate (reinforce_concept emptySwarmEnv "x" (1/200)) 0) "x"
      = none := by
  norm_num [pheromoneOf, evaporate, reinforce_concept, emptySwarmEnv]

end AICswarm
